import Mathlib

/-!
Verification development for the market-maker decision engine.

The repository ships a thin process shell (`MarketMaker::start` / `MarketMaker::stop`
in source/market_maker/market_maker.cpp); the decision-engine components
(OrderBook, PositionTracker, RiskGate, QuoteEngine, OrderLifecycleManager) are
specified in spec.md but not yet implemented in the repository, so they are
modelled here directly from the specification text.  Prices and quantities are
modelled as integers (in minimal price/size units) or rationals where averaging
requires division.
-/

namespace MarketMakerSpec

/-- Modelled from the spec: an Instrument carries a tick size and price bounds
(§3 "Instrument: identifier, tick size, lot size, price bounds").  Prices are
integers in minimal currency units; the identifier and lot size play no role in
the claims and are omitted. -/
structure Instrument where
  tick : ℤ
  minPrice : ℤ
  maxPrice : ℤ
  deriving Repr, DecidableEq

/-- Modelled from the spec: clamping a price to the instrument's price bounds
(§4.4 "its output is clamped to the instrument's tick size and price bounds"). -/
def clampPrice (inst : Instrument) (p : ℤ) : ℤ :=
  max inst.minPrice (min inst.maxPrice p)

/-- Modelled from the spec: aligning a raw bid down to the tick grid (§4.4
tick-size clamping; the bid is rounded toward the conservative side). -/
def alignDown (tick p : ℤ) : ℤ :=
  tick * (p / tick)

/-- Modelled from the spec: aligning a raw ask up to the tick grid (§4.4
tick-size clamping; the ask is rounded toward the conservative side). -/
def alignUp (tick p : ℤ) : ℤ :=
  -(tick * ((-p) / tick))

/-- Modelled from the spec: the number of symmetric one-tick widening steps
needed to uncross a crossed quote pair (§4.4 "If computed bid ≥ computed ask
(crossed), the engine widens symmetrically until non-crossed"). -/
def crossWidenSteps (tick bid ask : ℤ) : ℕ :=
  if bid < ask then 0 else ((bid - ask) / (2 * tick) + 1).toNat

/-- Modelled from the spec: widen a (bid, ask) pair symmetrically, one tick per
step on each side, until the pair is no longer crossed (§4.4). -/
def widenUncross (tick bid ask : ℤ) : ℤ × ℤ :=
  (bid - (crossWidenSteps tick bid ask : ℤ) * tick,
   ask + (crossWidenSteps tick bid ask : ℤ) * tick)

/-- Modelled from the spec: QuoteEngine.recompute applied to the raw output
(rawBid, rawAsk) of the externally supplied pricing strategy (§4.4): the raw
prices are aligned to the tick grid, clamped to the price bounds, symmetrically
widened if crossed, and clamped once more to the price bounds. -/
def recompute (inst : Instrument) (rawBid rawAsk : ℤ) : ℤ × ℤ :=
  let b := clampPrice inst (alignDown inst.tick rawBid)
  let a := clampPrice inst (alignUp inst.tick rawAsk)
  let w := widenUncross inst.tick b a
  (clampPrice inst w.1, clampPrice inst w.2)

lemma clampPrice_le (inst : Instrument) (p : ℤ) (h : inst.minPrice ≤ inst.maxPrice) :
    clampPrice inst p ≤ inst.maxPrice := by
  unfold clampPrice
  exact max_le h (min_le_left _ _)

lemma le_clampPrice (inst : Instrument) (p : ℤ) :
    inst.minPrice ≤ clampPrice inst p :=
  le_max_left _ _

lemma dvd_clampPrice (inst : Instrument) (p : ℤ) {t : ℤ}
    (hmin : t ∣ inst.minPrice) (hmax : t ∣ inst.maxPrice) (hp : t ∣ p) :
    t ∣ clampPrice inst p := by
  unfold clampPrice
  rcases le_total inst.maxPrice p with h | h
  · rw [min_eq_left h]
    rcases le_total inst.minPrice inst.maxPrice with h2 | h2
    · rw [max_eq_right h2]; exact hmax
    · rw [max_eq_left h2]; exact hmin
  · rw [min_eq_right h]
    rcases le_total inst.minPrice p with h2 | h2
    · rw [max_eq_right h2]; exact hp
    · rw [max_eq_left h2]; exact hmin

lemma dvd_alignDown (t p : ℤ) : t ∣ alignDown t p :=
  Dvd.intro _ rfl

lemma dvd_alignUp (t p : ℤ) : t ∣ alignUp t p :=
  (Dvd.intro _ rfl).neg_right

lemma widenUncross_not_crossed {t : ℤ} (ht : 0 < t) (b a : ℤ) :
    (widenUncross t b a).1 < (widenUncross t b a).2 := by
  unfold widenUncross crossWidenSteps
  by_cases h : b < a
  · simp [h]
  · simp only [h, if_false]
    push_neg at h
    have h2t : 0 < 2 * t := by linarith
    have hk0 : 0 ≤ (b - a) / (2 * t) + 1 :=
      add_nonneg (Int.ediv_nonneg (by linarith) h2t.le) one_pos.le
    rw [Int.toNat_of_nonneg hk0]
    have hmod := Int.emod_lt_of_pos (b - a) h2t
    have hdiv := Int.ediv_add_emod (b - a) (2 * t)
    nlinarith [hmod, hdiv]

lemma widenUncross_one_le_steps {t : ℤ} (ht : 0 < t) (b a : ℤ) (h : a ≤ b) :
    1 ≤ (crossWidenSteps t b a : ℤ) := by
  unfold crossWidenSteps
  rw [if_neg (not_lt.mpr h)]
  have h2t : 0 < 2 * t := by linarith
  have hq : 0 ≤ (b - a) / (2 * t) := Int.ediv_nonneg (by linarith) h2t.le
  rw [Int.toNat_of_nonneg (by linarith)]
  linarith

/-- Claim C1: for every raw output of the externally supplied pricing strategy,
including crossed or out-of-bound pairs, QuoteEngine.recompute returns quotes
within [minPrice, maxPrice], aligned to the tick size, with bid < ask; and when
the computed bid ≥ computed ask the engine widens both sides symmetrically (the
same whole number of ticks on each side) until they are not crossed. -/
theorem quoteEngine_recompute_safe (inst : Instrument) (rawBid rawAsk : ℤ)
    (ht : 0 < inst.tick) (hmin : inst.tick ∣ inst.minPrice)
    (hmax : inst.tick ∣ inst.maxPrice)
    (hband : inst.minPrice + inst.tick ≤ inst.maxPrice) :
    inst.minPrice ≤ (recompute inst rawBid rawAsk).1 ∧
    (recompute inst rawBid rawAsk).1 ≤ inst.maxPrice ∧
    inst.minPrice ≤ (recompute inst rawBid rawAsk).2 ∧
    (recompute inst rawBid rawAsk).2 ≤ inst.maxPrice ∧
    inst.tick ∣ (recompute inst rawBid rawAsk).1 ∧
    inst.tick ∣ (recompute inst rawBid rawAsk).2 ∧
    (recompute inst rawBid rawAsk).1 < (recompute inst rawBid rawAsk).2 ∧
    (∀ b a : ℤ, a ≤ b → ∃ k : ℕ,
      widenUncross inst.tick b a = (b - (k : ℤ) * inst.tick, a + (k : ℤ) * inst.tick) ∧
      b - (k : ℤ) * inst.tick < a + (k : ℤ) * inst.tick) := by
  have hle : inst.minPrice ≤ inst.maxPrice := by linarith
  set t := inst.tick with htdef
  set b := clampPrice inst (alignDown t rawBid) with hbdef
  set a := clampPrice inst (alignUp t rawAsk) with hadef
  have hb_lo : inst.minPrice ≤ b := le_clampPrice _ _
  have hb_hi : b ≤ inst.maxPrice := clampPrice_le _ _ hle
  have ha_lo : inst.minPrice ≤ a := le_clampPrice _ _
  have ha_hi : a ≤ inst.maxPrice := clampPrice_le _ _ hle
  have hbd : t ∣ b := dvd_clampPrice _ _ hmin hmax (dvd_alignDown _ _)
  have had : t ∣ a := dvd_clampPrice _ _ hmin hmax (dvd_alignUp _ _)
  set k : ℤ := (crossWidenSteps t b a : ℤ) with hkdef
  have hk0 : 0 ≤ k := Int.natCast_nonneg _
  have hw : widenUncross t b a = (b - k * t, a + k * t) := rfl
  have hwlt : b - k * t < a + k * t := by
    have := widenUncross_not_crossed ht b a
    rw [hw] at this; exact this
  have hre : recompute inst rawBid rawAsk =
      (clampPrice inst (b - k * t), clampPrice inst (a + k * t)) := by
    show (clampPrice inst (widenUncross t b a).1, clampPrice inst (widenUncross t b a).2) =
      (clampPrice inst (b - k * t), clampPrice inst (a + k * t))
    rw [hw]
  have hkt : 0 ≤ k * t := mul_nonneg hk0 ht.le
  -- the widened pair stays inside [minPrice, maxPrice] on the side it moved from
  have hw1_hi : b - k * t ≤ inst.maxPrice := by linarith
  have hw2_lo : inst.minPrice ≤ a + k * t := by linarith
  have hfb : clampPrice inst (b - k * t) = max inst.minPrice (b - k * t) := by
    unfold clampPrice
    rw [min_eq_right hw1_hi]
  have hfa : clampPrice inst (a + k * t) = min inst.maxPrice (a + k * t) := by
    unfold clampPrice
    rw [max_eq_right (le_min hle hw2_lo)]
  have hcross : clampPrice inst (b - k * t) < clampPrice inst (a + k * t) := by
    rw [hfb, hfa]
    rcases lt_or_le b a with hba | hba
    · have hk : k = 0 := by
        have : crossWidenSteps t b a = 0 := by unfold crossWidenSteps; rw [if_pos hba]
        simp [hkdef, this]
      rw [hk]
      simp only [zero_mul, sub_zero, add_zero]
      exact max_lt_iff.mpr ⟨lt_min_iff.mpr ⟨by linarith, by linarith⟩,
        lt_min_iff.mpr ⟨by linarith, hba⟩⟩
    · have hk1 : 1 ≤ k := widenUncross_one_le_steps ht b a hba
      have htk : t ≤ k * t := le_mul_of_one_le_left ht.le hk1
      exact max_lt_iff.mpr ⟨lt_min_iff.mpr ⟨by linarith, by linarith⟩,
        lt_min_iff.mpr ⟨by linarith, hwlt⟩⟩
  refine ⟨?_, ?_, ?_, ?_, ?_, ?_, ?_, ?_⟩
  · rw [hre]; exact le_clampPrice _ _
  · rw [hre]; exact clampPrice_le _ _ hle
  · rw [hre]; exact le_clampPrice _ _
  · rw [hre]; exact clampPrice_le _ _ hle
  · rw [hre]
    exact dvd_clampPrice _ _ hmin hmax (dvd_sub hbd (Dvd.dvd.mul_left dvd_rfl k))
  · rw [hre]
    exact dvd_clampPrice _ _ hmin hmax (dvd_add had (Dvd.dvd.mul_left dvd_rfl k))
  · rw [hre]; exact hcross
  · intro b' a' hba'
    refine ⟨crossWidenSteps t b' a', rfl, ?_⟩
    have := widenUncross_not_crossed ht b' a'
    exact this

/-- Witness for C1 at a concrete crossed, out-of-bounds strategy output:
instrument with tick 1 and bounds [0, 10], raw bid 17, raw ask 3. -/
theorem quoteEngine_recompute_safe_witness :
    ((0 : ℤ) ≤ (recompute ⟨1, 0, 10⟩ 17 3).1 ∧
      (recompute ⟨1, 0, 10⟩ 17 3).1 < (recompute ⟨1, 0, 10⟩ 17 3).2) :=
  ⟨(quoteEngine_recompute_safe ⟨1, 0, 10⟩ 17 3 (by decide) (one_dvd _) (one_dvd _)
      (by decide)).1,
   (quoteEngine_recompute_safe ⟨1, 0, 10⟩ 17 3 (by decide) (one_dvd _) (one_dvd _)
      (by decide)).2.2.2.2.2.2.1⟩

/-- Modelled from the spec: order side (§3 OrderRecord "side"). -/
inductive Side
  | buy
  | sell
  deriving Repr, DecidableEq

/-- Modelled from the spec: the signed position delta a full fill of the given
side and quantity produces (§4.2 "buys increase, sells decrease"). -/
def Side.signedQty (s : Side) (qty : ℤ) : ℤ :=
  match s with
  | .buy => qty
  | .sell => -qty

/-- Modelled from the spec: per-instrument risk limits (§3 RiskLimits "max
absolute position, max single-order quantity, max open-order count, max
quote-to-venue rate"; the price band of §4.3 check (d) is included). -/
structure RiskLimits where
  maxPosition : ℤ
  maxOrderQty : ℤ
  maxOpenOrders : ℕ
  priceBand : ℤ
  maxRate : ℕ
  deriving Repr, DecidableEq

/-- Modelled from the spec: the state RiskGate reads when evaluating an action
(§4.3: current position from PositionTracker, open-order count, best bid/ask
from OrderBook, and the submission count in the current rolling rate window). -/
structure RiskState where
  position : ℤ
  openOrders : ℕ
  bestBid : ℤ
  bestAsk : ℤ
  rateCount : ℕ
  deriving Repr, DecidableEq

/-- Modelled from the spec: specific rejection reason codes (§4.3 "Rejections
are reported with a specific reason code"). -/
inductive RejectReason
  | positionLimit
  | orderSize
  | openOrderCap
  | priceBand
  | rateLimit
  deriving Repr, DecidableEq

/-- Modelled from the spec: the result of RiskGate.evaluate (§4.3
"evaluate(proposedAction) -> Approved | Rejected(reason)"). -/
inductive RiskDecision
  | approved
  | rejected (reason : RejectReason)
  deriving Repr, DecidableEq

/-- Modelled from the spec: a proposed order action (§4.3 "proposedAction is
\x7bNewOrder, Cancel, Amend\x7d"). -/
inductive ProposedAction
  | newOrder (side : Side) (qty price : ℤ)
  | cancel (clientId : ℕ)
  | amend (clientId : ℕ) (qty price : ℤ)
  deriving Repr, DecidableEq

/-- Modelled from the spec: RiskGate.evaluate (§4.3).  For a NewOrder the
checks run in order, short-circuiting on first failure: (a) resulting position
after full fill within max absolute position, (b) order quantity within max
single-order quantity, (c) open-order count within cap, (d) price within a sane
band around current best bid/ask, (e) rolling-window submission rate within
cap.  Cancels bypass the position/size caps but still pass through the rate
check; an Amend is checked like a NewOrder except that it adds no open order. -/
def evaluate (lim : RiskLimits) (st : RiskState) : ProposedAction → RiskDecision
  | .newOrder side qty price =>
    if lim.maxPosition < |st.position + side.signedQty qty| then
      .rejected .positionLimit
    else if lim.maxOrderQty < qty then .rejected .orderSize
    else if lim.maxOpenOrders < st.openOrders + 1 then .rejected .openOrderCap
    else if price < st.bestBid - lim.priceBand ∨ st.bestAsk + lim.priceBand < price then
      .rejected .priceBand
    else if lim.maxRate ≤ st.rateCount then .rejected .rateLimit
    else .approved
  | .cancel _ => if lim.maxRate ≤ st.rateCount then .rejected .rateLimit else .approved
  | .amend _ qty price =>
    if lim.maxOrderQty < qty then .rejected .orderSize
    else if price < st.bestBid - lim.priceBand ∨ st.bestAsk + lim.priceBand < price then
      .rejected .priceBand
    else if lim.maxRate ≤ st.rateCount then .rejected .rateLimit
    else .approved

/-- Claim C2: RiskGate.evaluate rejects with reason PositionLimit every
NewOrder whose full fill would push the absolute position beyond maxPosition,
for any state of the remaining checks; and it approves every Cancel regardless
of the current position, open orders, or book state, provided the rolling rate
window is not exhausted (risk-reducing actions bypass the position and size
caps but still pass the rate check). -/
theorem riskGate_evaluate_limits (lim : RiskLimits) (st : RiskState) :
    (∀ side qty price, lim.maxPosition < |st.position + side.signedQty qty| →
      evaluate lim st (ProposedAction.newOrder side qty price) =
        RiskDecision.rejected RejectReason.positionLimit) ∧
    (∀ clientId, st.rateCount < lim.maxRate →
      evaluate lim st (ProposedAction.cancel clientId) = RiskDecision.approved) := by
  constructor
  · intro side qty price h
    simp only [evaluate]
    rw [if_pos h]
  · intro clientId h
    simp only [evaluate]
    rw [if_neg (by omega)]

/-- Witness for C2 at the spec's own scenario: maxPosition 100, current
position 90, desired new buy order of quantity 20 is rejected with
PositionLimit, and a cancel in the same state is approved. -/
theorem riskGate_evaluate_limits_witness :
    evaluate ⟨100, 50, 10, 5, 10⟩ ⟨90, 1, 99, 101, 0⟩
        (ProposedAction.newOrder Side.buy 20 101) =
      RiskDecision.rejected RejectReason.positionLimit ∧
    evaluate ⟨100, 50, 10, 5, 10⟩ ⟨90, 1, 99, 101, 0⟩ (ProposedAction.cancel 7) =
      RiskDecision.approved :=
  ⟨(riskGate_evaluate_limits ⟨100, 50, 10, 5, 10⟩ ⟨90, 1, 99, 101, 0⟩).1
      Side.buy 20 101 (by decide),
   (riskGate_evaluate_limits ⟨100, 50, 10, 5, 10⟩ ⟨90, 1, 99, 101, 0⟩).2 7 (by decide)⟩

/-- Modelled from the spec: the kind of a market-data event (§6 "kind:
Snapshot|LevelUpdate|Trade").  A level update carries side, price and the new
aggregate quantity (§4.1); a snapshot carries the full level lists per side. -/
inductive MDKind
  | snapshot (bids asks : List (ℤ × ℤ))
  | levelUpdate (side : Side) (price qty : ℤ)
  | trade (price qty : ℤ)
  deriving Repr, DecidableEq

/-- Modelled from the spec: a market-data event delivered to OrderBook, with
its per-instrument monotone sequence number (§6). -/
structure MDEvent where
  seq : ℕ
  kind : MDKind
  deriving Repr, DecidableEq

/-- Whether the event kind is a full snapshot. -/
def MDKind.isSnapshot : MDKind → Bool
  | .snapshot _ _ => true
  | _ => false

/-- Modelled from the spec: messages OrderBook emits back to external
collaborators: a resync request on gaps (§6) and an external alert on a
crossed book (§7 CrossedBook "alerts externally"). -/
inductive BookEmit
  | resyncRequest
  | crossedBookAlert
  deriving Repr, DecidableEq

/-- Modelled from the spec: the per-instrument book state: level lists per
side (price, aggregate quantity), last applied sequence number, and whether
the book is valid or awaiting resynchronization (§3 OrderBookSnapshot, §4.1). -/
structure BookState where
  bids : List (ℤ × ℤ)
  asks : List (ℤ × ℤ)
  lastSeq : ℕ
  synced : Bool
  deriving Repr, DecidableEq

/-- The empty, synced book before any event. -/
def initBook : BookState := ⟨[], [], 0, true⟩

/-- Modelled from the spec: applying one level update to a side: the level at
that price is replaced by the new aggregate quantity, and quantity zero removes
the level (§4.1 "Level updates with quantity zero remove the level"). -/
def setLevel (levels : List (ℤ × ℤ)) (price qty : ℤ) : List (ℤ × ℤ) :=
  let rest := levels.filter (fun l => l.1 ≠ price)
  if qty = 0 then rest else (price, qty) :: rest

/-- Best (highest) bid price of a bid-side level list, if any (§4.1
bestBid). -/
def bestBid (levels : List (ℤ × ℤ)) : Option ℤ :=
  (levels.map Prod.fst).max?

/-- Best (lowest) ask price of an ask-side level list, if any (§4.1
bestAsk). -/
def bestAsk (levels : List (ℤ × ℤ)) : Option ℤ :=
  (levels.map Prod.fst).min?

/-- Whether a pair of sides is crossed: both sides non-empty and
best bid ≥ best ask (§3 "a crossed book is a data-integrity error"). -/
def crossedBook (bids asks : List (ℤ × ℤ)) : Bool :=
  match bestBid bids, bestAsk asks with
  | some b, some a => decide (a ≤ b)
  | _, _ => false

/-- Modelled from the spec: the crossed-book guard run after every mutation:
a crossed book is a data-integrity violation, so the book is cleared and
resynced and the condition is alerted externally (§7 CrossedBook "clears and
resyncs that instrument, alerts externally"); otherwise the state passes
through untouched. -/
def crossGuard (s : BookState) : BookState × List BookEmit :=
  if crossedBook s.bids s.asks then
    ({ s with bids := [], asks := [], synced := false },
     [BookEmit.crossedBookAlert, BookEmit.resyncRequest])
  else (s, [])

/-- Modelled from the spec: OrderBook.apply for one instrument (§4.1): an
event with sequence ≤ last-applied is a duplicate and is dropped; a full
snapshot rebuilds the book and resumes normal application; while the book is
invalidated, non-snapshot events are discarded; a gap (sequence >
last-applied + 1) invalidates the book and emits a resync request; otherwise
the update is applied and the crossed-book guard runs. -/
def applyEvent : BookState → MDEvent → BookState × List BookEmit
  | s, ⟨seq, .snapshot bids asks⟩ =>
    if seq ≤ s.lastSeq then (s, [])
    else crossGuard { bids := bids, asks := asks, lastSeq := seq, synced := true }
  | s, ⟨seq, .levelUpdate side price qty⟩ =>
    if seq ≤ s.lastSeq then (s, [])
    else if s.synced = false then (s, [])
    else if s.lastSeq + 1 < seq then
      ({ s with bids := [], asks := [], synced := false }, [BookEmit.resyncRequest])
    else
      match side with
      | .buy => crossGuard { s with bids := setLevel s.bids price qty, lastSeq := seq }
      | .sell => crossGuard { s with asks := setLevel s.asks price qty, lastSeq := seq }
  | s, ⟨seq, .trade _ _⟩ =>
    if seq ≤ s.lastSeq then (s, [])
    else if s.synced = false then (s, [])
    else if s.lastSeq + 1 < seq then
      ({ s with bids := [], asks := [], synced := false }, [BookEmit.resyncRequest])
    else ({ s with lastSeq := seq }, [])

/-- The observable book after a sequence of market-data events applied in
order from the initial empty book. -/
def runBook (events : List MDEvent) : BookState :=
  events.foldl (fun s e => (applyEvent s e).1) initBook

/-- A book state is uncrossed: whenever both sides quote, best bid < best
ask. -/
def bookOk (s : BookState) : Prop :=
  ∀ b a, bestBid s.bids = some b → bestAsk s.asks = some a → b < a

lemma crossGuard_fst_lastSeq (s : BookState) : (crossGuard s).1.lastSeq = s.lastSeq := by
  unfold crossGuard
  split <;> rfl

lemma crossGuard_ok (s : BookState) : bookOk (crossGuard s).1 := by
  unfold crossGuard
  by_cases h : crossedBook s.bids s.asks = true
  · rw [if_pos h]
    intro b a hb ha
    simp [bestBid] at hb
  · rw [if_neg h]
    show bookOk s
    intro b a hb ha
    unfold crossedBook at h
    rw [hb, ha] at h
    simp at h
    linarith

lemma bestBid_of_ne_nil {l : List (ℤ × ℤ)} (h : l ≠ []) : ∃ b, bestBid l = some b := by
  cases l with
  | nil => exact absurd rfl h
  | cons x xs => exact ⟨_, rfl⟩

lemma bestAsk_of_ne_nil {l : List (ℤ × ℤ)} (h : l ≠ []) : ∃ a, bestAsk l = some a := by
  cases l with
  | nil => exact absurd rfl h
  | cons x xs => exact ⟨_, rfl⟩

lemma applyEvent_dropped (s : BookState) (e : MDEvent) (h : e.seq ≤ s.lastSeq) :
    applyEvent s e = (s, []) := by
  obtain ⟨seq, kind⟩ := e
  cases kind <;> (simp only [applyEvent]; rw [if_pos h])

lemma applyEvent_ok (s : BookState) (e : MDEvent) (h : bookOk s) :
    bookOk (applyEvent s e).1 := by
  obtain ⟨seq, kind⟩ := e
  cases kind with
  | snapshot bids asks =>
    simp only [applyEvent]
    split
    · exact h
    · exact crossGuard_ok _
  | levelUpdate side price qty =>
    simp only [applyEvent]
    split
    · exact h
    · split
      · exact h
      · split
        · intro b a hb ha
          simp [bestBid] at hb
        · cases side
          · exact crossGuard_ok _
          · exact crossGuard_ok _
  | trade price qty =>
    simp only [applyEvent]
    split
    · exact h
    · split
      · exact h
      · split
        · intro b a hb ha
          simp [bestBid] at hb
        · exact h

lemma runBook_ok (events : List MDEvent) : bookOk (runBook events) := by
  suffices H : ∀ s, bookOk s → bookOk (events.foldl (fun s e => (applyEvent s e).1) s) by
    apply H
    intro b a hb
    simp [initBook, bestBid] at hb
  induction events with
  | nil => intro s hs; exact hs
  | cons e es ih =>
    intro s hs
    exact ih _ (applyEvent_ok s e hs)

/-- Claim C3: for every sequence of level-update events applied in order, the
observable (steady-state) order book is never crossed: whenever both sides are
non-empty, best bid < best ask; and a crossed book is a data-integrity error
that is never silently accepted — the crossed-book guard clears the book,
marks it for resync and alerts externally. -/
theorem orderBook_steady_state_not_crossed (events : List MDEvent) :
    ((runBook events).bids ≠ [] → (runBook events).asks ≠ [] →
      ∃ b a, bestBid (runBook events).bids = some b ∧
        bestAsk (runBook events).asks = some a ∧ b < a) ∧
    (∀ s : BookState, crossedBook s.bids s.asks = true →
      crossGuard s = ({ s with bids := [], asks := [], synced := false },
        [BookEmit.crossedBookAlert, BookEmit.resyncRequest])) := by
  constructor
  · intro hb ha
    obtain ⟨b, hbb⟩ := bestBid_of_ne_nil hb
    obtain ⟨a, haa⟩ := bestAsk_of_ne_nil ha
    exact ⟨b, a, hbb, haa, runBook_ok events b a hbb haa⟩
  · intro s hcross
    unfold crossGuard
    rw [if_pos hcross]

/-- Witness for C3 on a concrete event tape: a snapshot with bids at 10 and
asks at 11 yields best bid 10 < best ask 11, and a concrete crossed state is
cleared and alerted by the guard. -/
theorem orderBook_steady_state_not_crossed_witness :
    (∃ b a, bestBid (runBook [⟨1, MDKind.snapshot [(10, 5)] [(11, 7)]⟩]).bids = some b ∧
      bestAsk (runBook [⟨1, MDKind.snapshot [(10, 5)] [(11, 7)]⟩]).asks = some a ∧ b < a) ∧
    crossGuard ⟨[(12, 5)], [(11, 7)], 3, true⟩ =
      (⟨[], [], 3, false⟩, [BookEmit.crossedBookAlert, BookEmit.resyncRequest]) :=
  ⟨(orderBook_steady_state_not_crossed [⟨1, MDKind.snapshot [(10, 5)] [(11, 7)]⟩]).1
      (by decide) (by decide),
   (orderBook_steady_state_not_crossed []).2 ⟨[(12, 5)], [(11, 7)], 3, true⟩ (by decide)⟩

/-- Claim C4: an event whose sequence number is ≤ the last-applied sequence
number for the instrument is dropped, leaving the book state unchanged and
emitting nothing; and applying the same event twice yields the same book state
as applying it once (idempotence), for every starting state and event. -/
theorem orderBook_apply_idempotent (s : BookState) (e : MDEvent) :
    (e.seq ≤ s.lastSeq → applyEvent s e = (s, [])) ∧
    (applyEvent (applyEvent s e).1 e).1 = (applyEvent s e).1 := by
  refine ⟨applyEvent_dropped s e, ?_⟩
  obtain ⟨seq, kind⟩ := e
  by_cases hdup : seq ≤ s.lastSeq
  · rw [applyEvent_dropped s ⟨seq, kind⟩ hdup, applyEvent_dropped s ⟨seq, kind⟩ hdup]
  · cases kind with
    | snapshot bids asks =>
      have h1 : applyEvent s ⟨seq, .snapshot bids asks⟩ =
          crossGuard { bids := bids, asks := asks, lastSeq := seq, synced := true } := by
        simp only [applyEvent]
        rw [if_neg hdup]
      have hle2 : (⟨seq, MDKind.snapshot bids asks⟩ : MDEvent).seq ≤
          (crossGuard ⟨bids, asks, seq, true⟩).1.lastSeq :=
        le_of_eq (crossGuard_fst_lastSeq ⟨bids, asks, seq, true⟩).symm
      rw [h1, applyEvent_dropped _ _ hle2]
    | levelUpdate side price qty =>
      by_cases hs : s.synced = false
      · have h1 : applyEvent s ⟨seq, .levelUpdate side price qty⟩ = (s, []) := by
          simp only [applyEvent]
          rw [if_neg hdup, if_pos hs]
        rw [h1, h1]
      · by_cases hgap : s.lastSeq + 1 < seq
        · have h1 : applyEvent s ⟨seq, .levelUpdate side price qty⟩ =
              ({ s with bids := [], asks := [], synced := false },
               [BookEmit.resyncRequest]) := by
            simp only [applyEvent]
            rw [if_neg hdup, if_neg hs, if_pos hgap]
          have h2 : applyEvent { s with bids := [], asks := [], synced := false }
              ⟨seq, .levelUpdate side price qty⟩ =
              ({ s with bids := [], asks := [], synced := false }, []) := by
            simp [applyEvent, hdup]
          rw [h1, h2]
        · cases side with
          | buy =>
            have h1 : applyEvent s ⟨seq, .levelUpdate .buy price qty⟩ =
                crossGuard { s with bids := setLevel s.bids price qty, lastSeq := seq } := by
              simp only [applyEvent]
              rw [if_neg hdup, if_neg hs, if_neg hgap]
            have hle2 : (⟨seq, MDKind.levelUpdate Side.buy price qty⟩ : MDEvent).seq ≤
                (crossGuard ⟨setLevel s.bids price qty, s.asks, seq, s.synced⟩).1.lastSeq :=
              le_of_eq (crossGuard_fst_lastSeq ⟨setLevel s.bids price qty, s.asks, seq, s.synced⟩).symm
            rw [h1, applyEvent_dropped _ _ hle2]
          | sell =>
            have h1 : applyEvent s ⟨seq, .levelUpdate .sell price qty⟩ =
                crossGuard { s with asks := setLevel s.asks price qty, lastSeq := seq } := by
              simp only [applyEvent]
              rw [if_neg hdup, if_neg hs, if_neg hgap]
            have hle2 : (⟨seq, MDKind.levelUpdate Side.sell price qty⟩ : MDEvent).seq ≤
                (crossGuard ⟨s.bids, setLevel s.asks price qty, seq, s.synced⟩).1.lastSeq :=
              le_of_eq (crossGuard_fst_lastSeq ⟨s.bids, setLevel s.asks price qty, seq, s.synced⟩).symm
            rw [h1, applyEvent_dropped _ _ hle2]
    | trade price qty =>
      by_cases hs : s.synced = false
      · have h1 : applyEvent s ⟨seq, .trade price qty⟩ = (s, []) := by
          simp only [applyEvent]
          rw [if_neg hdup, if_pos hs]
        rw [h1, h1]
      · by_cases hgap : s.lastSeq + 1 < seq
        · have h1 : applyEvent s ⟨seq, .trade price qty⟩ =
              ({ s with bids := [], asks := [], synced := false },
               [BookEmit.resyncRequest]) := by
            simp only [applyEvent]
            rw [if_neg hdup, if_neg hs, if_pos hgap]
          have h2 : applyEvent { s with bids := [], asks := [], synced := false }
              ⟨seq, .trade price qty⟩ =
              ({ s with bids := [], asks := [], synced := false }, []) := by
            simp [applyEvent, hdup]
          rw [h1, h2]
        · have h1 : applyEvent s ⟨seq, .trade price qty⟩ = ({ s with lastSeq := seq }, []) := by
            simp only [applyEvent]
            rw [if_neg hdup, if_neg hs, if_neg hgap]
          rw [h1, applyEvent_dropped _ _ (le_refl seq)]

/-- Witness for C4: a duplicate of sequence 3 against a book whose last
applied sequence is 5 is dropped unchanged. -/
theorem orderBook_apply_idempotent_witness :
    applyEvent ⟨[(10, 5)], [(11, 7)], 5, true⟩ ⟨3, MDKind.trade 10 1⟩ =
      (⟨[(10, 5)], [(11, 7)], 5, true⟩, []) :=
  (orderBook_apply_idempotent ⟨[(10, 5)], [(11, 7)], 5, true⟩ ⟨3, MDKind.trade 10 1⟩).1
    (by decide)

/-- Claim C5: on a sequence gap (sequence > last-applied + 1) for a synced
book, a non-snapshot event invalidates the book (cleared, marked unsynced) and
emits a ResyncRequest to the external feed collaborator; while the book is
invalidated, further non-snapshot updates are discarded without any state
change; and a fresh full snapshot with a newer sequence number rebuilds the
book and resumes normal application. -/
theorem orderBook_gap_resync (s : BookState) (e : MDEvent) :
    (s.synced = true → s.lastSeq + 1 < e.seq → e.kind.isSnapshot = false →
      applyEvent s e = ({ s with bids := [], asks := [], synced := false },
        [BookEmit.resyncRequest])) ∧
    (s.synced = false → e.kind.isSnapshot = false → applyEvent s e = (s, [])) ∧
    (∀ bids asks, s.lastSeq < e.seq → e.kind = MDKind.snapshot bids asks →
      crossedBook bids asks = false →
      applyEvent s e = (⟨bids, asks, e.seq, true⟩, [])) := by
  obtain ⟨seq, kind⟩ := e
  refine ⟨?_, ?_, ?_⟩
  · intro hsync hgap hks
    have hgap2 : s.lastSeq + 1 < seq := hgap
    have hdup : ¬ seq ≤ s.lastSeq := by omega
    cases kind with
    | snapshot bids asks => simp [MDKind.isSnapshot] at hks
    | levelUpdate side price qty => simp [applyEvent, hdup, hsync, hgap2]
    | trade price qty => simp [applyEvent, hdup, hsync, hgap2]
  · intro hsync hks
    cases kind with
    | snapshot bids asks => simp [MDKind.isSnapshot] at hks
    | levelUpdate side price qty =>
      by_cases hdup : seq ≤ s.lastSeq
      · exact applyEvent_dropped _ _ hdup
      · simp [applyEvent, hdup, hsync]
    | trade price qty =>
      by_cases hdup : seq ≤ s.lastSeq
      · exact applyEvent_dropped _ _ hdup
      · simp [applyEvent, hdup, hsync]
  · intro bids asks hseq hkind hcross
    have hkind2 : kind = MDKind.snapshot bids asks := hkind
    subst hkind2
    have hseq2 : s.lastSeq < seq := hseq
    have hdup : ¬ seq ≤ s.lastSeq := by omega
    simp [applyEvent, hdup, crossGuard, hcross]

/-- Witness for C5 at the spec scenario: the book update sequence jumps from
50 to 53, the book is invalidated and a ResyncRequest emitted, a further
update at 54 is discarded, and a fresh snapshot at 53 resumes application. -/
theorem orderBook_gap_resync_witness :
    applyEvent ⟨[(10, 2)], [(11, 3)], 50, true⟩ ⟨53, MDKind.levelUpdate Side.buy 10 0⟩ =
      (⟨[], [], 50, false⟩, [BookEmit.resyncRequest]) ∧
    applyEvent ⟨[], [], 50, false⟩ ⟨54, MDKind.trade 10 1⟩ = (⟨[], [], 50, false⟩, []) ∧
    applyEvent ⟨[], [], 50, false⟩ ⟨53, MDKind.snapshot [(10, 2)] [(11, 3)]⟩ =
      (⟨[(10, 2)], [(11, 3)], 53, true⟩, []) :=
  ⟨(orderBook_gap_resync ⟨[(10, 2)], [(11, 3)], 50, true⟩
      ⟨53, MDKind.levelUpdate Side.buy 10 0⟩).1 rfl (by decide) rfl,
   (orderBook_gap_resync ⟨[], [], 50, false⟩ ⟨54, MDKind.trade 10 1⟩).2.1 rfl rfl,
   (orderBook_gap_resync ⟨[], [], 50, false⟩
      ⟨53, MDKind.snapshot [(10, 2)] [(11, 3)]⟩).2.2 [(10, 2)] [(11, 3)]
      (by decide) rfl (by decide)⟩

/-- Modelled from the spec: per-instrument position state: signed quantity,
average entry price, realized P&L (§3 Position).  Quantities and prices are
rationals so that weighted-average entry prices are exact. -/
structure Position where
  qty : ℚ
  avgEntry : ℚ
  realized : ℚ
  deriving Repr, DecidableEq

/-- Modelled from the spec: one fill event as delivered to
PositionTracker.applyFill: side, price, (positive) quantity, maker flag
(§4.2). -/
structure Fill where
  side : Side
  price : ℚ
  quantity : ℚ
  isMaker : Bool
  deriving Repr, DecidableEq

/-- The flat position before any fill. -/
def initPosition : Position := ⟨0, 0, 0⟩

/-- The signed position delta of a fill: buys increase, sells decrease the
signed position (§4.2). -/
def fillDelta (f : Fill) : ℚ :=
  match f.side with
  | .buy => f.quantity
  | .sell => -f.quantity

/-- Modelled from the spec: PositionTracker.applyFill with
weighted-average-cost accounting (§4.2): a fill extending the position (same
sign) recomputes the average entry price as a weighted average and accrues no
realized P&L; a fill reducing the position accrues realized P&L against the
prior average entry price and keeps it; a fill reversing the position closes
the whole prior position against the prior average entry price and opens the
remainder at the fill price. -/
def applyFill (pos : Position) (f : Fill) : Position :=
  if pos.qty = 0 then ⟨fillDelta f, f.price, pos.realized⟩
  else if 0 < pos.qty * fillDelta f then
    ⟨pos.qty + fillDelta f,
     (pos.qty * pos.avgEntry + fillDelta f * f.price) / (pos.qty + fillDelta f),
     pos.realized⟩
  else if |fillDelta f| ≤ |pos.qty| then
    ⟨pos.qty + fillDelta f,
     if pos.qty + fillDelta f = 0 then 0 else pos.avgEntry,
     pos.realized + (-(fillDelta f)) * (f.price - pos.avgEntry)⟩
  else
    ⟨pos.qty + fillDelta f, f.price,
     pos.realized + pos.qty * (f.price - pos.avgEntry)⟩

/-- Unrealized P&L of a position against a reference price: position ×
(reference price − average entry) (§8). -/
def unrealized (ref : ℚ) (pos : Position) : ℚ :=
  pos.qty * (ref - pos.avgEntry)

/-- Total mark-to-market of a fill tape against a reference price: each fill
contributes its signed quantity × (reference price − fill price). -/
def tapeMTM (ref : ℚ) (tape : List Fill) : ℚ :=
  (tape.map (fun f => fillDelta f * (ref - f.price))).sum

/-- The position after replaying a fill tape from flat. -/
def runFills (tape : List Fill) : Position :=
  tape.foldl applyFill initPosition

lemma applyFill_qty (pos : Position) (f : Fill) :
    (applyFill pos f).qty = pos.qty + fillDelta f := by
  unfold applyFill
  by_cases h0 : pos.qty = 0
  · simp [h0]
  · rw [if_neg h0]
    by_cases hext : 0 < pos.qty * fillDelta f
    · rw [if_pos hext]
    · rw [if_neg hext]
      by_cases hred : |fillDelta f| ≤ |pos.qty|
      · rw [if_pos hred]
      · rw [if_neg hred]

lemma applyFill_mtm (ref : ℚ) (pos : Position) (f : Fill) :
    (applyFill pos f).realized + unrealized ref (applyFill pos f) =
      pos.realized + unrealized ref pos + fillDelta f * (ref - f.price) := by
  unfold applyFill unrealized
  by_cases h0 : pos.qty = 0
  · simp [h0]
  · rw [if_neg h0]
    by_cases hext : 0 < pos.qty * fillDelta f
    · rw [if_pos hext]
      have hsum : pos.qty + fillDelta f ≠ 0 := by
        rcases mul_pos_iff.mp hext with ⟨hq, hd⟩ | ⟨hq, hd⟩
        · exact (by linarith : (0 : ℚ) < pos.qty + fillDelta f).ne'
        · exact (by linarith : pos.qty + fillDelta f < 0).ne
      field_simp
      ring
    · rw [if_neg hext]
      by_cases hred : |fillDelta f| ≤ |pos.qty|
      · rw [if_pos hred]
        by_cases hz : pos.qty + fillDelta f = 0
        · rw [if_pos hz]
          have hd : fillDelta f = -pos.qty := by linarith
          rw [hz, hd]
          ring
        · rw [if_neg hz]
          ring
      · rw [if_neg hred]
        ring

/-- Claim C6: buys increase and sells decrease the signed position; a
same-sign fill extends the position, recomputing the average entry price as a
weighted average with no realized P&L; a reducing fill accrues realized P&L
against the prior average entry price; a reversing fill closes the prior
position against the prior average entry price and re-opens at the fill
price; and consequently, for every fill tape, realized P&L plus unrealized
P&L (position × (reference price − average entry)) equals the total
mark-to-market of the tape. -/
theorem positionTracker_consistent (tape : List Fill) (ref : ℚ) :
    ((runFills tape).realized + unrealized ref (runFills tape) = tapeMTM ref tape) ∧
    (∀ pos f, f.side = Side.buy → (applyFill pos f).qty = pos.qty + f.quantity) ∧
    (∀ pos f, f.side = Side.sell → (applyFill pos f).qty = pos.qty - f.quantity) ∧
    (∀ pos f, pos.qty ≠ 0 → 0 < pos.qty * fillDelta f →
      (applyFill pos f).realized = pos.realized ∧
      (applyFill pos f).avgEntry =
        (pos.qty * pos.avgEntry + fillDelta f * f.price) / (pos.qty + fillDelta f)) ∧
    (∀ pos f, pos.qty ≠ 0 → ¬ 0 < pos.qty * fillDelta f → |fillDelta f| ≤ |pos.qty| →
      (applyFill pos f).realized =
        pos.realized + (-(fillDelta f)) * (f.price - pos.avgEntry)) ∧
    (∀ pos f, pos.qty ≠ 0 → ¬ 0 < pos.qty * fillDelta f → ¬ |fillDelta f| ≤ |pos.qty| →
      (applyFill pos f).realized = pos.realized + pos.qty * (f.price - pos.avgEntry) ∧
      (applyFill pos f).avgEntry = f.price) := by
  refine ⟨?_, ?_, ?_, ?_, ?_, ?_⟩
  · suffices H : ∀ pos, (tape.foldl applyFill pos).realized +
        unrealized ref (tape.foldl applyFill pos) =
        pos.realized + unrealized ref pos + tapeMTM ref tape by
      have h := H initPosition
      rw [runFills]
      rw [h]
      simp [initPosition, unrealized]
    induction tape with
    | nil =>
      intro pos
      simp [tapeMTM]
    | cons f fs ih =>
      intro pos
      simp only [List.foldl_cons]
      rw [ih (applyFill pos f), applyFill_mtm]
      simp [tapeMTM]
      ring
  · intro pos f hside
    rw [applyFill_qty]
    unfold fillDelta
    rw [hside]
  · intro pos f hside
    rw [applyFill_qty]
    unfold fillDelta
    rw [hside]
    ring
  · intro pos f h0 hext
    unfold applyFill
    rw [if_neg h0, if_pos hext]
    exact ⟨rfl, rfl⟩
  · intro pos f h0 hext hred
    unfold applyFill
    rw [if_neg h0, if_neg hext, if_pos hred]
  · intro pos f h0 hext hred
    unfold applyFill
    rw [if_neg h0, if_neg hext, if_neg hred]
    exact ⟨rfl, rfl⟩

/-- Witness for C6 on a concrete tape: buy 2 at 10 then sell 1 at 12, marked
at reference price 11; and a concrete buy extends the position quantity. -/
theorem positionTracker_consistent_witness :
    ((runFills [⟨Side.buy, 10, 2, true⟩, ⟨Side.sell, 12, 1, true⟩]).realized +
      unrealized 11 (runFills [⟨Side.buy, 10, 2, true⟩, ⟨Side.sell, 12, 1, true⟩]) =
      tapeMTM 11 [⟨Side.buy, 10, 2, true⟩, ⟨Side.sell, 12, 1, true⟩]) ∧
    (applyFill ⟨5, 10, 0⟩ ⟨Side.buy, 9, 3, true⟩).qty = 5 + 3 :=
  ⟨(positionTracker_consistent [⟨Side.buy, 10, 2, true⟩, ⟨Side.sell, 12, 1, true⟩] 11).1,
   (positionTracker_consistent [] 0).2.1 ⟨5, 10, 0⟩ ⟨Side.buy, 9, 3, true⟩ rfl⟩

/-- Modelled from the spec: the per-order state machine states (§4.5
"Pending → Acknowledged → {PartiallyFilled ⇄ Acknowledged} → {Filled | Canceled
| Rejected}", plus CancelPending). -/
inductive OrderState
  | pending
  | acknowledged
  | partFilled
  | cancelPending
  | filled
  | canceled
  | rejected
  deriving Repr, DecidableEq

/-- Filled, Canceled and Rejected are terminal (§4.5). -/
def OrderState.isTerminal : OrderState → Bool
  | .filled => true
  | .canceled => true
  | .rejected => true
  | _ => false

/-- Modelled from the spec: an OrderRecord (§3): client order id, venue order
id (populated on ack), instrument, side, price, quantity, filled quantity and
state.  Instrument identifiers are numbers. -/
structure OrderRecord where
  clientId : ℕ
  venueId : Option ℕ
  instrument : ℕ
  side : Side
  price : ℤ
  quantity : ℤ
  filledQty : ℤ
  state : OrderState
  deriving Repr, DecidableEq

/-- Modelled from the spec: a venue execution event referencing one order
(§6 order-entry collaborator). -/
inductive ExecEvent
  | ack (venueId : ℕ)
  | reject
  | fill (execId : ℕ) (price qty : ℤ) (isMaker : Bool)
  | cancelConfirmed
  deriving Repr, DecidableEq

/-- Log entries of the lifecycle manager; a late event on a terminal order is
logged and discarded (§4.5). -/
inductive LcmLog
  | lateEventDiscarded (clientId : ℕ)
  deriving Repr, DecidableEq

/-- Modelled from the spec: the transition of one OrderRecord on a venue
event (§4.5).  Terminal records accept no transition: the event is logged and
discarded, leaving the record unchanged.  A non-terminal record transitions:
ack acknowledges a pending order and stores the venue id; reject is terminal
from pending; a fill accumulates filled quantity, reaching Filled at full
quantity (also if it races a pending cancel), otherwise PartiallyFilled
(or stays CancelPending); a cancel confirmation makes it Canceled. -/
def onEvent (r : OrderRecord) : ExecEvent → OrderRecord × List LcmLog
  | .ack vid =>
    if r.state.isTerminal then (r, [LcmLog.lateEventDiscarded r.clientId])
    else
      match r.state with
      | .pending => ({ r with state := .acknowledged, venueId := some vid }, [])
      | _ => (r, [])
  | .reject =>
    if r.state.isTerminal then (r, [LcmLog.lateEventDiscarded r.clientId])
    else
      match r.state with
      | .pending => ({ r with state := .rejected }, [])
      | _ => (r, [])
  | .fill _ _ qty _ =>
    if r.state.isTerminal then (r, [LcmLog.lateEventDiscarded r.clientId])
    else if r.quantity ≤ r.filledQty + qty then
      ({ r with filledQty := r.filledQty + qty, state := .filled }, [])
    else if r.state = .cancelPending then
      ({ r with filledQty := r.filledQty + qty }, [])
    else ({ r with filledQty := r.filledQty + qty, state := .partFilled }, [])
  | .cancelConfirmed =>
    if r.state.isTerminal then (r, [LcmLog.lateEventDiscarded r.clientId])
    else ({ r with state := .canceled }, [])

lemma onEvent_terminal (r : OrderRecord) (e : ExecEvent) (h : r.state.isTerminal = true) :
    (onEvent r e).1 = r := by
  cases e <;> (simp only [onEvent]; rw [if_pos h])

lemma onEvent_fields (r : OrderRecord) (e : ExecEvent) :
    (onEvent r e).1.instrument = r.instrument ∧ (onEvent r e).1.side = r.side := by
  cases e with
  | ack vid =>
    simp only [onEvent]
    split
    · exact ⟨rfl, rfl⟩
    · cases r.state <;> exact ⟨rfl, rfl⟩
  | reject =>
    simp only [onEvent]
    split
    · exact ⟨rfl, rfl⟩
    · cases r.state <;> exact ⟨rfl, rfl⟩
  | fill eid p q mk =>
    simp only [onEvent]
    split
    · exact ⟨rfl, rfl⟩
    · by_cases h1 : r.quantity ≤ r.filledQty + q
      · rw [if_pos h1]; exact ⟨rfl, rfl⟩
      · rw [if_neg h1]
        by_cases h2 : r.state = OrderState.cancelPending
        · rw [if_pos h2]; exact ⟨rfl, rfl⟩
        · rw [if_neg h2]; exact ⟨rfl, rfl⟩
  | cancelConfirmed =>
    simp only [onEvent]
    split
    · exact ⟨rfl, rfl⟩
    · exact ⟨rfl, rfl⟩

/-- Claim C7: a record in a terminal state (Filled, Canceled or Rejected) is
never changed again: a late-arriving event is logged and discarded and the
record is returned unchanged, and no sequence of further events changes it. -/
theorem orderLifecycle_terminal_immutable (r : OrderRecord) (e : ExecEvent) :
    (r.state.isTerminal = true →
      (onEvent r e).1 = r ∧
      (onEvent r e).2 = [LcmLog.lateEventDiscarded r.clientId]) ∧
    (∀ es : List ExecEvent, r.state.isTerminal = true →
      es.foldl (fun x ev => (onEvent x ev).1) r = r) := by
  constructor
  · intro h
    cases e <;> (simp only [onEvent]; rw [if_pos h]; exact ⟨rfl, rfl⟩)
  · intro es
    induction es with
    | nil => intro h; rfl
    | cons e0 es ih =>
      intro h
      simp only [List.foldl_cons]
      rw [onEvent_terminal r e0 h]
      exact ih h

/-- Witness for C7: a filled record ignores a late cancel confirmation and a
late fill/ack tape. -/
theorem orderLifecycle_terminal_immutable_witness :
    (onEvent ⟨1, some 9, 0, Side.buy, 100, 10, 10, OrderState.filled⟩
        ExecEvent.cancelConfirmed).1 =
      ⟨1, some 9, 0, Side.buy, 100, 10, 10, OrderState.filled⟩ ∧
    [ExecEvent.fill 5 100 1 true, ExecEvent.ack 2].foldl (fun x ev => (onEvent x ev).1)
        ⟨1, some 9, 0, Side.buy, 100, 10, 10, OrderState.filled⟩ =
      ⟨1, some 9, 0, Side.buy, 100, 10, 10, OrderState.filled⟩ :=
  ⟨((orderLifecycle_terminal_immutable ⟨1, some 9, 0, Side.buy, 100, 10, 10,
      OrderState.filled⟩ ExecEvent.cancelConfirmed).1 rfl).1,
   (orderLifecycle_terminal_immutable ⟨1, some 9, 0, Side.buy, 100, 10, 10,
      OrderState.filled⟩ (ExecEvent.ack 0)).2
     [ExecEvent.fill 5 100 1 true, ExecEvent.ack 2] rfl⟩

/-- A record rests on (instrument, side) while non-terminal (§8 reconciliation
invariant: "two non-terminal OrderRecords simultaneously resting on the same
instrument+side"). -/
def restingOn (instr : ℕ) (side : Side) (r : OrderRecord) : Bool :=
  decide (r.instrument = instr) && decide (r.side = side) && !r.state.isTerminal

/-- Modelled from the spec: the state of OrderLifecycleManager: the arena of
OrderRecords and the monotonically increasing next client order id (§3). -/
structure Manager where
  records : List OrderRecord
  nextId : ℕ
  deriving Repr, DecidableEq

/-- The manager before any order is sent. -/
def initManager : Manager := ⟨[], 0⟩

/-- Modelled from the spec: a DesiredQuote for one side of one instrument
(§3). -/
structure DesiredQuote where
  instrument : ℕ
  side : Side
  price : ℤ
  qty : ℤ
  deriving Repr, DecidableEq

/-- Modelled from the spec: routing a venue execution event to the record it
references by client order id (§4.5, §4.6). -/
def applyExec (m : Manager) (cid : ℕ) (e : ExecEvent) : Manager :=
  { m with records := m.records.map (fun r => if r.clientId = cid then (onEvent r e).1 else r) }

/-- Modelled from the spec: one reconciliation pass for one DesiredQuote
(§4.5): if no non-terminal record rests on the quote's instrument+side, a
NewOrder is submitted (when RiskGate approves) as a fresh Pending record; if a
live (acknowledged or partially filled) record differs from the desired quote
beyond the tolerance, the old order is canceled (cancel-replace: the
replacement is submitted on a later pass, once the cancel resolves, so the
engine never has two orders resting on one side); otherwise no action. -/
def reconcile (m : Manager) (q : DesiredQuote) (tol : ℤ) (riskOk : Bool) : Manager :=
  match m.records.filter (restingOn q.instrument q.side) with
  | [] =>
    if riskOk then
      ⟨⟨m.nextId, none, q.instrument, q.side, q.price, q.qty, 0, OrderState.pending⟩
        :: m.records, m.nextId + 1⟩
    else m
  | r :: _ =>
    if (r.state = OrderState.acknowledged ∨ r.state = OrderState.partFilled) ∧
        (tol < |r.price - q.price| ∨ tol < |r.quantity - q.qty|) then
      { m with records := m.records.map (fun x =>
          if x.clientId = r.clientId ∧ x.state.isTerminal = false then
            { x with state := OrderState.cancelPending }
          else x) }
    else m

/-- One engine step: either a venue execution event or a reconciliation pass
for a desired quote (§4.6 dispatcher routing). -/
inductive LcmStep
  | exec (clientId : ℕ) (e : ExecEvent)
  | requote (q : DesiredQuote) (tol : ℤ) (riskOk : Bool)

/-- Apply one step to the manager. -/
def lcmStep (m : Manager) : LcmStep → Manager
  | .exec cid e => applyExec m cid e
  | .requote q tol ok => reconcile m q tol ok

/-- The manager state after a sequence of steps from the initial manager. -/
def runManager (steps : List LcmStep) : Manager :=
  steps.foldl lcmStep initManager

/-- The number of non-terminal records resting on one instrument+side. -/
def onSideCount (m : Manager) (instr : ℕ) (side : Side) : ℕ :=
  (m.records.filter (restingOn instr side)).length

lemma filterLen_map_le {α : Type} (p : α → Bool) (f : α → α)
    (hf : ∀ x, p (f x) = true → p x = true) :
    ∀ l : List α, ((l.map f).filter p).length ≤ (l.filter p).length := by
  intro l
  induction l with
  | nil => simp
  | cons x xs ih =>
    simp only [List.map_cons, List.filter_cons]
    by_cases hx : p (f x) = true
    · rw [if_pos hx, if_pos (hf x hx)]
      simp only [List.length_cons]
      exact Nat.succ_le_succ ih
    · rw [if_neg hx]
      by_cases hy : p x = true
      · rw [if_pos hy]
        exact le_trans ih (Nat.le_succ _)
      · rw [if_neg hy]
        exact ih

lemma restingOn_onEvent {instr : ℕ} {side : Side} (x : OrderRecord) (e : ExecEvent)
    (hp : restingOn instr side (onEvent x e).1 = true) :
    restingOn instr side x = true := by
  unfold restingOn at hp ⊢
  rw [Bool.and_eq_true, Bool.and_eq_true] at hp
  obtain ⟨⟨h1, h2⟩, h3⟩ := hp
  rw [(onEvent_fields x e).1] at h1
  rw [(onEvent_fields x e).2] at h2
  by_cases ht : x.state.isTerminal = true
  · rw [onEvent_terminal x e ht, ht] at h3
    simp at h3
  · have ht2 : x.state.isTerminal = false := by
      cases hts : x.state.isTerminal
      · rfl
      · exact absurd hts ht
    rw [h1, h2, ht2]
    rfl

lemma applyExec_count (m : Manager) (cid : ℕ) (e : ExecEvent) (instr : ℕ) (side : Side) :
    onSideCount (applyExec m cid e) instr side ≤ onSideCount m instr side := by
  unfold onSideCount applyExec
  apply filterLen_map_le
  intro x hp
  by_cases hc : x.clientId = cid
  · rw [if_pos hc] at hp
    exact restingOn_onEvent x e hp
  · rw [if_neg hc] at hp
    exact hp

lemma reconcile_count (m : Manager) (q : DesiredQuote) (tol : ℤ) (ok : Bool)
    (instr : ℕ) (side : Side) (h : onSideCount m instr side ≤ 1) :
    onSideCount (reconcile m q tol ok) instr side ≤ 1 := by
  unfold onSideCount at h ⊢
  unfold reconcile
  split
  · rename_i hfil
    split
    · show (List.filter (restingOn instr side)
        (⟨m.nextId, none, q.instrument, q.side, q.price, q.qty, 0, OrderState.pending⟩
          :: m.records)).length ≤ 1
      rw [List.filter_cons]
      by_cases hp : restingOn instr side
          ⟨m.nextId, none, q.instrument, q.side, q.price, q.qty, 0, OrderState.pending⟩ = true
      · rw [if_pos hp]
        have hp2 := hp
        simp only [restingOn, Bool.and_eq_true, decide_eq_true_eq] at hp2
        obtain ⟨⟨h1, h2⟩, h3⟩ := hp2
        subst h1
        subst h2
        rw [hfil]
        simp
      · rw [if_neg hp]
        exact h
    · exact h
  · rename_i r rest hfil
    split
    · have hf : ∀ x : OrderRecord, restingOn instr side
          (if x.clientId = r.clientId ∧ x.state.isTerminal = false then
            { x with state := OrderState.cancelPending } else x) = true →
          restingOn instr side x = true := by
        intro x hp
        by_cases hc : x.clientId = r.clientId ∧ x.state.isTerminal = false
        · rw [if_pos hc] at hp
          unfold restingOn at hp ⊢
          rw [Bool.and_eq_true] at hp
          rw [Bool.and_eq_true]
          refine ⟨hp.1, ?_⟩
          rw [hc.2]
          rfl
        · rw [if_neg hc] at hp
          exact hp
      exact le_trans (filterLen_map_le (restingOn instr side) _ hf m.records) h
    · exact h

/-- Claim C8: in every state reachable by any sequence of venue events and
reconciliation passes from the initial manager, at most one non-terminal
OrderRecord rests on any given instrument+side pair. -/
theorem orderLifecycle_single_resting (steps : List LcmStep) (instr : ℕ) (side : Side) :
    onSideCount (runManager steps) instr side ≤ 1 := by
  suffices H : ∀ m, onSideCount m instr side ≤ 1 →
      onSideCount (steps.foldl lcmStep m) instr side ≤ 1 by
    apply H
    simp [onSideCount, initManager]
  induction steps with
  | nil => exact fun m hm => hm
  | cons st sts ih =>
    intro m hm
    simp only [List.foldl_cons]
    apply ih
    cases st with
    | exec cid e => exact le_trans (applyExec_count m cid e instr side) hm
    | requote q tol ok => exact reconcile_count m q tol ok instr side hm

/-- The observable world of the shipped program: the sequence of lines written
to standard output.  The repository code (source/market_maker/market_maker.cpp)
holds no other state. -/
structure World where
  stdout : List String
  deriving Repr, DecidableEq

/-- Embedded from source/market_maker/market_maker.cpp, MarketMaker::start
(lines 6-8): prints "Market maker starting..." with std::endl; the function
takes no arguments, returns void, and touches no other state. -/
def MarketMaker.start (w : World) : World :=
  { w with stdout := w.stdout ++ ["Market maker starting..."] }

/-- Embedded from source/market_maker/market_maker.cpp, MarketMaker::stop
(lines 10-12): prints "Market maker stopping..." with std::endl; the function
takes no arguments, returns void, and touches no other state. -/
def MarketMaker.stop (w : World) : World :=
  { w with stdout := w.stdout ++ ["Market maker stopping..."] }

/-- Claim C10: for every starting world, MarketMaker.start appends exactly the
line "Market maker starting..." to standard output and MarketMaker.stop
appends exactly "Market maker stopping..."; the world (whose only component is
standard output, since the code holds no other state) is otherwise unchanged —
this is the entire observable behaviour of the repository's code. -/
theorem marketMaker_start_stop (w : World) :
    MarketMaker.start w = ⟨w.stdout ++ ["Market maker starting..."]⟩ ∧
    MarketMaker.stop w = ⟨w.stdout ++ ["Market maker stopping..."]⟩ :=
  ⟨rfl, rfl⟩

end MarketMakerSpec
